import Mathlib

/-!
Verification development for the SketchBoard collaboration core
(`src/collaboration/yjs.ts`, `src/collaboration/localTransport.ts` which also
contains the `PersistenceManager`, and `src/collaboration/transport.ts`).

The TypeScript code delegates all CRDT merging to the `yjs` library
(`Y.Doc`, `Y.Map`, `Y.applyUpdate`, `Y.encodeStateAsUpdate`).  The shallow
embedding below therefore models the fragment of yjs that the repository
exercises: a document is a store of map items, each stamped with an
`ItemID = (client, clock)`; a nested `Y.Map` (one per shape) is identified by
the id of the item that inserted it; `Y.applyUpdate` adds the update's items
to the store and unions its delete set (yjs integration skips structs that
are already known, so the store behaves as a set of items); the visible value
of a map key is the integration winner among the non-deleted items for that
key.  For concurrent writes to the same key yjs lets the item from the larger
client id win; a map overwrite deletes the item it replaces, so causally
superseded items are always in the delete set.  The winner is therefore
modelled as the maximum in the lexicographic order on (client, clock), with
the full encoded item as a deterministic tie-break.

Shape, ShapeStyle and ShapeMetadata mirror `@/canvas/types` as used by
`yjs.ts` (`yjsMapToShape` / `shapeToYjsMap`), `tools/pen.ts` and
`tools/base.ts`: pen/rectangle/ellipse/text shapes with a shared `style` and
`metadata` field.  Updates travel as opaque byte sequences, modelled as
`List Nat` with an explicit, validating encoder/decoder pair.
-/

set_option maxHeartbeats 1000000

namespace SketchBoard

/-- A yjs struct id: replica (client) id and per-replica logical clock. -/
structure ItemID where
  client : Nat
  clock : Nat
deriving DecidableEq, Repr

/-- A 2D point, as used in `PenShape.points`. Numbers are modelled as `Int`. -/
structure Pt where
  x : Int
  y : Int
deriving DecidableEq, Repr

/-- `ShapeStyle` from `@/canvas/types` (fields as used by `shapeRenderer.ts`
and the pen tool's `defaultStyle`). -/
structure ShapeStyle where
  strokeColor : String
  fillColor : String
  strokeWidth : Int
  lineCap : Option String
  lineJoin : Option String
  opacity : Option Int
deriving DecidableEq, Repr

/-- Shape metadata per `tools/base.ts` `createShapeMetadata`. -/
structure ShapeMetadata where
  createdBy : String
  createdAt : String
  updatedAt : String
deriving DecidableEq, Repr

/-- `fontWeight?: string | number` on text shapes. -/
inductive FontWeight where
  | ofString (s : String)
  | ofNumber (n : Int)
deriving DecidableEq, Repr

/-- A value stored in a nested shape `Y.Map` entry.  `undef` models the
JavaScript `undefined` stored by a `map.set(k, undefined)`. -/
inductive YValue where
  | str (s : String)
  | num (n : Int)
  | boolean (b : Bool)
  | pointsV (ps : List Pt)
  | styleV (v : ShapeStyle)
  | metaV (v : ShapeMetadata)
  | fontWV (v : FontWeight)
  | undefinedV
deriving DecidableEq, Repr

/-- Item content: either it inserts a nested `Y.Map` (a shape's map, identified
by the inserting item's id) or it writes a plain value. -/
inductive Content where
  | nestedMap
  | value (v : YValue)
deriving DecidableEq, Repr

/-- A yjs map item.  `parent = none` means the root `shapes` map
(`doc.getMap('shapes')`); `parent = some mid` means the nested shape map
created by the item with id `mid`.  `key` is the map key written. -/
structure Item where
  id : ItemID
  parent : Option ItemID
  key : String
  content : Content
deriving DecidableEq, Repr

/-- A decoded yjs update: the new items it carries and its delete set. -/
structure Update where
  items : List Item
  deleted : List ItemID
deriving DecidableEq, Repr

/-- The `Shape` union from `@/canvas/types` as read and written by
`yjsMapToShape` / `shapeToYjsMap`.  Optional fields are `Option`;
`style`/`metadata` are `Option` because `yjsMapToShape` passes a possibly
absent stored value through an unchecked cast. -/
inductive Shape where
  | pen (id : String) (points : List Pt) (style : Option ShapeStyle)
        (metadata : Option ShapeMetadata) (closed : Option Bool)
  | rectangle (id : String) (x y width height : Int) (style : Option ShapeStyle)
        (metadata : Option ShapeMetadata)
  | ellipse (id : String) (centerX centerY radiusX radiusY : Int)
        (style : Option ShapeStyle) (metadata : Option ShapeMetadata)
  | text (id : String) (x y : Int) (text : String) (fontFamily : Option String)
        (fontSize : Option Int) (fontWeight : Option FontWeight)
        (textAlign : Option String) (style : Option ShapeStyle)
        (metadata : Option ShapeMetadata)
deriving DecidableEq, Repr

/-- `shape.id`. -/
def Shape.sid : Shape → String
  | .pen i _ _ _ _ => i
  | .rectangle i _ _ _ _ _ _ => i
  | .ellipse i _ _ _ _ _ _ => i
  | .text i _ _ _ _ _ _ _ _ _ => i

/-! ## Byte serialization

Updates cross the transport and persistence boundaries as opaque bytes
(`Uint8Array` in the source).  We model byte sequences as `List Nat` with a
validating decoder, so that malformed byte strings are a real possibility.
The encoding is length/tag prefixed and injective (proved via the decoders).
-/

def encBool : Bool → List Nat
  | false => [0]
  | true => [1]

def encInt : Int → List Nat
  | .ofNat n => [0, n]
  | .negSucc n => [1, n]

def encStr (s : String) : List Nat :=
  s.data.length :: s.data.map Char.toNat

def encOpt {α : Type} (f : α → List Nat) : Option α → List Nat
  | none => [0]
  | some a => 1 :: f a

def encPt (p : Pt) : List Nat := encInt p.x ++ encInt p.y

def encListBy {α : Type} (f : α → List Nat) (l : List α) : List Nat :=
  l.length :: (l.map f).flatten

def encStyle (v : ShapeStyle) : List Nat :=
  encStr v.strokeColor ++ encStr v.fillColor ++ encInt v.strokeWidth ++
    encOpt encStr v.lineCap ++ encOpt encStr v.lineJoin ++ encOpt encInt v.opacity

def encMeta (v : ShapeMetadata) : List Nat :=
  encStr v.createdBy ++ encStr v.createdAt ++ encStr v.updatedAt

def encFW : FontWeight → List Nat
  | .ofString s => 0 :: encStr s
  | .ofNumber n => 1 :: encInt n

def encVal : YValue → List Nat
  | .str s => 0 :: encStr s
  | .num n => 1 :: encInt n
  | .boolean b => 2 :: encBool b
  | .pointsV ps => 3 :: encListBy encPt ps
  | .styleV v => 4 :: encStyle v
  | .metaV v => 5 :: encMeta v
  | .fontWV v => 6 :: encFW v
  | .undefinedV => [7]

def encContent : Content → List Nat
  | .nestedMap => [0]
  | .value v => 1 :: encVal v

def encItemID (i : ItemID) : List Nat := [i.client, i.clock]

/-- Encode an item.  The client id and clock come first, so that the
lexicographic order on encoded items orders items primarily by
(client, clock) — the yjs map-conflict winner is the maximum. -/
def encItem (it : Item) : List Nat :=
  it.id.client :: it.id.clock :: (encOpt encItemID it.parent ++ encStr it.key ++ encContent it.content)

def encUpdate (u : Update) : List Nat :=
  encListBy encItem u.items ++ encListBy encItemID u.deleted

/-! ### Decoders -/

def dNat : List Nat → Option (Nat × List Nat)
  | [] => none
  | n :: r => some (n, r)

def dBool : List Nat → Option (Bool × List Nat)
  | 0 :: r => some (false, r)
  | 1 :: r => some (true, r)
  | _ => none

def dInt : List Nat → Option (Int × List Nat)
  | 0 :: n :: r => some (.ofNat n, r)
  | 1 :: n :: r => some (.negSucc n, r)
  | _ => none

def dChars : Nat → List Nat → Option (List Char × List Nat)
  | 0, r => some ([], r)
  | _ + 1, [] => none
  | n + 1, c :: r => (dChars n r).map fun p => (Char.ofNat c :: p.1, p.2)

def dStr (l : List Nat) : Option (String × List Nat) :=
  (dNat l).bind fun p => (dChars p.1 p.2).map fun q => (String.mk q.1, q.2)

def dOpt {α : Type} (d : List Nat → Option (α × List Nat)) :
    List Nat → Option (Option α × List Nat)
  | 0 :: r => some (none, r)
  | 1 :: r => (d r).map fun p => (some p.1, p.2)
  | _ => none

def dPt (l : List Nat) : Option (Pt × List Nat) :=
  (dInt l).bind fun p => (dInt p.2).map fun q => (⟨p.1, q.1⟩, q.2)

def dMany {α : Type} (d : List Nat → Option (α × List Nat)) :
    Nat → List Nat → Option (List α × List Nat)
  | 0, r => some ([], r)
  | n + 1, r => (d r).bind fun p => (dMany d n p.2).map fun q => (p.1 :: q.1, q.2)

def dListBy {α : Type} (d : List Nat → Option (α × List Nat)) (l : List Nat) :
    Option (List α × List Nat) :=
  (dNat l).bind fun p => dMany d p.1 p.2

def dStyle (l : List Nat) : Option (ShapeStyle × List Nat) :=
  (dStr l).bind fun a => (dStr a.2).bind fun b => (dInt b.2).bind fun c =>
    (dOpt dStr c.2).bind fun d => (dOpt dStr d.2).bind fun e =>
      (dOpt dInt e.2).map fun f => (⟨a.1, b.1, c.1, d.1, e.1, f.1⟩, f.2)

def dMeta (l : List Nat) : Option (ShapeMetadata × List Nat) :=
  (dStr l).bind fun a => (dStr a.2).bind fun b => (dStr b.2).map fun c =>
    (⟨a.1, b.1, c.1⟩, c.2)

def dFW : List Nat → Option (FontWeight × List Nat)
  | 0 :: r => (dStr r).map fun p => (.ofString p.1, p.2)
  | 1 :: r => (dInt r).map fun p => (.ofNumber p.1, p.2)
  | _ => none

def dVal : List Nat → Option (YValue × List Nat)
  | 0 :: r => (dStr r).map fun p => (.str p.1, p.2)
  | 1 :: r => (dInt r).map fun p => (.num p.1, p.2)
  | 2 :: r => (dBool r).map fun p => (.boolean p.1, p.2)
  | 3 :: r => (dListBy dPt r).map fun p => (.pointsV p.1, p.2)
  | 4 :: r => (dStyle r).map fun p => (.styleV p.1, p.2)
  | 5 :: r => (dMeta r).map fun p => (.metaV p.1, p.2)
  | 6 :: r => (dFW r).map fun p => (.fontWV p.1, p.2)
  | 7 :: r => some (.undefinedV, r)
  | _ => none

def dContent : List Nat → Option (Content × List Nat)
  | 0 :: r => some (.nestedMap, r)
  | 1 :: r => (dVal r).map fun p => (.value p.1, p.2)
  | _ => none

def dItemID : List Nat → Option (ItemID × List Nat)
  | client :: clock :: r => some (⟨client, clock⟩, r)
  | _ => none

def dItem : List Nat → Option (Item × List Nat)
  | client :: clock :: r =>
    (dOpt dItemID r).bind fun p => (dStr p.2).bind fun q =>
      (dContent q.2).map fun c => (⟨⟨client, clock⟩, p.1, q.1, c.1⟩, c.2)
  | _ => none

/-- Decode a full update; `none` models a yjs decode exception on malformed
bytes.  A decode consumes the whole byte string. -/
def decodeUpdate (l : List Nat) : Option Update :=
  (dListBy dItem l).bind fun p => (dListBy dItemID p.2).bind fun q =>
    if q.2 = [] then some ⟨p.1, q.1⟩ else none

/-! ### Decode/encode round-trips -/

theorem dBool_enc (b : Bool) (r : List Nat) : dBool (encBool b ++ r) = some (b, r) := by
  cases b <;> rfl

theorem dInt_enc (i : Int) (r : List Nat) : dInt (encInt i ++ r) = some (i, r) := by
  cases i <;> rfl

theorem char_ofNat_toNat (c : Char) : Char.ofNat c.toNat = c := by
  have h : Nat.isValidChar c.toNat := c.valid
  unfold Char.ofNat
  rw [dif_pos h]
  apply Char.eq_of_val_eq
  show (Char.ofNatAux c.toNat h).val = c.val
  unfold Char.ofNatAux
  apply UInt32.eq_of_toBitVec_eq
  apply BitVec.eq_of_toNat_eq
  rfl

theorem dChars_enc (cs : List Char) (r : List Nat) :
    dChars cs.length (cs.map Char.toNat ++ r) = some (cs, r) := by
  induction cs with
  | nil => rfl
  | cons c cs ih => simp [dChars, ih, char_ofNat_toNat]

theorem dStr_enc (s : String) (r : List Nat) : dStr (encStr s ++ r) = some (s, r) := by
  obtain ⟨data⟩ := s
  simp [encStr, dStr, dNat, dChars_enc]

theorem dOpt_enc {α : Type} {f : α → List Nat} {d : List Nat → Option (α × List Nat)}
    (hd : ∀ a r, d (f a ++ r) = some (a, r)) (o : Option α) (r : List Nat) :
    dOpt d (encOpt f o ++ r) = some (o, r) := by
  cases o with
  | none => rfl
  | some a => simp [encOpt, dOpt, hd]

theorem dPt_enc (p : Pt) (r : List Nat) : dPt (encPt p ++ r) = some (p, r) := by
  simp [encPt, dPt, dInt_enc, List.append_assoc]

theorem dMany_enc {α : Type} {f : α → List Nat} {d : List Nat → Option (α × List Nat)}
    (hd : ∀ a r, d (f a ++ r) = some (a, r)) (l : List α) (r : List Nat) :
    dMany d l.length ((l.map f).flatten ++ r) = some (l, r) := by
  induction l with
  | nil => rfl
  | cons a l ih => simp [dMany, hd, ih, List.append_assoc]

theorem dListBy_enc {α : Type} {f : α → List Nat} {d : List Nat → Option (α × List Nat)}
    (hd : ∀ a r, d (f a ++ r) = some (a, r)) (l : List α) (r : List Nat) :
    dListBy d (encListBy f l ++ r) = some (l, r) := by
  simp [encListBy, dListBy, dNat, dMany_enc hd]

theorem dStyle_enc (v : ShapeStyle) (r : List Nat) : dStyle (encStyle v ++ r) = some (v, r) := by
  obtain ⟨a, b, c, d, e, f⟩ := v
  simp [encStyle, dStyle, dStr_enc, dInt_enc, dOpt_enc dStr_enc, dOpt_enc dInt_enc,
    List.append_assoc]

theorem dMeta_enc (v : ShapeMetadata) (r : List Nat) : dMeta (encMeta v ++ r) = some (v, r) := by
  obtain ⟨a, b, c⟩ := v
  simp [encMeta, dMeta, dStr_enc, List.append_assoc]

theorem dFW_enc (v : FontWeight) (r : List Nat) : dFW (encFW v ++ r) = some (v, r) := by
  cases v <;> simp [encFW, dFW, dStr_enc, dInt_enc]

theorem dVal_enc (v : YValue) (r : List Nat) : dVal (encVal v ++ r) = some (v, r) := by
  cases v <;> simp [encVal, dVal, dStr_enc, dInt_enc, dBool_enc, dListBy_enc dPt_enc,
    dStyle_enc, dMeta_enc, dFW_enc]

theorem dContent_enc (c : Content) (r : List Nat) :
    dContent (encContent c ++ r) = some (c, r) := by
  cases c <;> simp [encContent, dContent, dVal_enc]

theorem dItemID_enc (i : ItemID) (r : List Nat) : dItemID (encItemID i ++ r) = some (i, r) := by
  obtain ⟨c, k⟩ := i
  rfl

theorem dItem_enc (it : Item) (r : List Nat) : dItem (encItem it ++ r) = some (it, r) := by
  obtain ⟨⟨c, k⟩, p, s, ct⟩ := it
  simp [encItem, dItem, dOpt_enc dItemID_enc, dStr_enc, dContent_enc, List.append_assoc]

theorem decodeUpdate_enc (u : Update) : decodeUpdate (encUpdate u) = some u := by
  have h1 := dListBy_enc dItem_enc u.items (encListBy encItemID u.deleted)
  have h2 := dListBy_enc dItemID_enc u.deleted []
  rw [List.append_nil] at h2
  simp [decodeUpdate, encUpdate, h1, h2]

theorem encItem_inj : Function.Injective encItem := by
  intro a b h
  have ha := dItem_enc a []
  have hb := dItem_enc b []
  rw [h] at ha
  have := ha.symm.trans hb
  simpa using this

theorem encItemID_inj : Function.Injective encItemID := by
  intro a b h
  cases a
  cases b
  simpa [encItemID] using h

/-- Items are linearly ordered by their encoding; since the encoding starts
with `client :: clock :: …`, this is the lexicographic (client, clock) order
with a deterministic tie-break on the rest, matching the yjs map-conflict
rule (the item from the larger client wins among concurrent writes; within
one client a later clock wins). -/
instance : LinearOrder Item := LinearOrder.lift' encItem encItem_inj

instance : LinearOrder ItemID := LinearOrder.lift' encItemID encItemID_inj

/-- A canonical listing of a finite set, via insertion sort (which, unlike
merge sort, evaluates by structural recursion). -/
def finSort {α : Type} [LinearOrder α] (s : Finset α) : List α :=
  Quot.liftOn s.val (List.insertionSort (· ≤ ·)) (fun l1 l2 h =>
    List.eq_of_perm_of_sorted
      ((List.perm_insertionSort _ l1).trans ((Quotient.exact (Quot.sound h)).trans
        (List.perm_insertionSort _ l2).symm))
      (List.sorted_insertionSort _ l1) (List.sorted_insertionSort _ l2))

theorem finSort_coe {α : Type} [LinearOrder α] (s : Finset α) :
    (finSort s : Multiset α) = s.val := by
  rcases s with ⟨val, nodup⟩
  induction val using Quot.ind with
  | _ l => exact Quot.sound (List.perm_insertionSort _ l)

theorem mem_finSort {α : Type} [LinearOrder α] {s : Finset α} {a : α} :
    a ∈ finSort s ↔ a ∈ s := by
  rw [← Multiset.mem_coe, finSort_coe]
  rfl

theorem toFinset_finSort {α : Type} [LinearOrder α] [DecidableEq α] (s : Finset α) :
    (finSort s).toFinset = s := by
  ext a
  rw [List.mem_toFinset, mem_finSort]

/-! ## Document state and yjs operations

`DocState` models a `Y.Doc` holding the `shapes` root map: the set of map
items ever integrated (yjs skips already-known structs, so the store is a
set keyed by `ItemID`; re-adding an item is a no-op under `∪`), the delete
set, and the local replica's client id and next clock. -/

structure DocState where
  clientId : Nat
  clock : Nat
  items : Finset Item
  deleted : Finset ItemID
deriving DecidableEq

/-- The non-deleted items written to key `k` of the map identified by `p`
(`none` = the root shapes map). -/
def candidates (st : DocState) (p : Option ItemID) (k : String) : Finset Item :=
  st.items.filter (fun it => it.parent = p ∧ it.key = k ∧ it.id ∉ st.deleted)

/-- Forget the bottom of a `WithBot` into an `Option` (they are the same
type by definition). -/
def obot {α : Type} (x : WithBot α) : Option α := x

/-- The visible (winning) item for a map key: the maximum candidate in the
item order (client id first, then clock — the yjs map conflict rule; a map
overwrite deletes the item it replaces, so superseded items are never
candidates). `none` models an absent map entry. -/
def visibleItem (st : DocState) (p : Option ItemID) (k : String) : Option Item :=
  obot (candidates st p k).max

/-- `shapeMap.get(k)` on the nested map `mid`: the visible value, `none` for a
JS `undefined`. A nested-map content in a field position is unreachable by
the protocol and is modelled as `undefined`. -/
def mapGet (st : DocState) (mid : ItemID) (k : String) : Option YValue :=
  match visibleItem st (some mid) k with
  | some it =>
    match it.content with
    | .value v => some v
    | .nestedMap => none
  | none => none

/-- JavaScript truthiness of a stored value (`!type` in `yjsMapToShape`);
objects and arrays are always truthy, `undefined`, `''`, `0` and `false` are
falsy. -/
def truthy : Option YValue → Bool
  | none => false
  | some (.str s) => s != ""
  | some (.num n) => n != 0
  | some (.boolean b) => b
  | some .undefinedV => false
  | some _ => true

/-- `shapeMap.get(k) as number` followed by `?? d` — the TS cast does not
inspect the value, so a non-number is modelled as the `undefined` case. -/
def asNum : Option YValue → Option Int
  | some (.num n) => some n
  | _ => none

def asStr : Option YValue → Option String
  | some (.str s) => some s
  | _ => none

def asBool : Option YValue → Option Bool
  | some (.boolean b) => some b
  | _ => none

/-- `(shapeMap.get('points') as PenShape['points']) || []`. -/
def asPoints : Option YValue → List Pt
  | some (.pointsV ps) => ps
  | _ => []

def asStyle : Option YValue → Option ShapeStyle
  | some (.styleV v) => some v
  | _ => none

def asMeta : Option YValue → Option ShapeMetadata
  | some (.metaV v) => some v
  | _ => none

def asFW : Option YValue → Option FontWeight
  | some (.str s) => some (.ofString s)
  | some (.num n) => some (.ofNumber n)
  | some (.fontWV v) => some v
  | _ => none

/-- `yjsMapToShape` (yjs.ts:227-308): deserialize the nested map `mid` into a
`Shape`.  Returns `none` when the `type` field is falsy (the `!type` guard)
or not one of the four known type strings (the `default:` branch); the
enclosing try/catch means the source never throws here. -/
def yjsMapToShape (st : DocState) (shapeId : String) (mid : ItemID) : Option Shape :=
  let tv := mapGet st mid "type"
  if truthy tv = false then none
  else
    let style := asStyle (mapGet st mid "style")
    let metadata := asMeta (mapGet st mid "metadata")
    match tv with
    | some (.str "pen") =>
        some (.pen shapeId (asPoints (mapGet st mid "points")) style metadata
          (some ((asBool (mapGet st mid "closed")).getD false)))
    | some (.str "rectangle") =>
        some (.rectangle shapeId ((asNum (mapGet st mid "x")).getD 0)
          ((asNum (mapGet st mid "y")).getD 0)
          ((asNum (mapGet st mid "width")).getD 0)
          ((asNum (mapGet st mid "height")).getD 0) style metadata)
    | some (.str "ellipse") =>
        some (.ellipse shapeId ((asNum (mapGet st mid "centerX")).getD 0)
          ((asNum (mapGet st mid "centerY")).getD 0)
          ((asNum (mapGet st mid "radiusX")).getD 0)
          ((asNum (mapGet st mid "radiusY")).getD 0) style metadata)
    | some (.str "text") =>
        some (.text shapeId ((asNum (mapGet st mid "x")).getD 0)
          ((asNum (mapGet st mid "y")).getD 0)
          ((asStr (mapGet st mid "text")).getD "")
          (asStr (mapGet st mid "fontFamily")) (asNum (mapGet st mid "fontSize"))
          (asFW (mapGet st mid "fontWeight")) (asStr (mapGet st mid "textAlign"))
          style metadata)
    | _ => none

/-- The stored `type` field values that `yjsMapToShape` deserializes: exactly
the four strings with a `case` in its `switch`. -/
def typeOk : Option YValue → Bool
  | some (.str "pen") => true
  | some (.str "rectangle") => true
  | some (.str "ellipse") => true
  | some (.str "text") => true
  | _ => false

/-- The keys of the root shapes map that have ever been written (keys whose
items are all deleted or shadowed are filtered out by `getShapes`). -/
def rootKeys (st : DocState) : Finset String :=
  (st.items.filter (fun it => it.parent = none)).image Item.key

/-- The snapshot entry produced for root key `k`: the visible nested map,
deserialized (a non-map root value makes `yjsMapToShape` throw into its
catch, yielding `null`). -/
def shapeEntry (st : DocState) (k : String) : Option (String × Shape) :=
  match visibleItem st none k with
  | some it =>
    match it.content with
    | .nestedMap => (yjsMapToShape st k it.id).map fun sh => (k, sh)
    | .value _ => none
  | none => none

/-- `getShapes` (yjs.ts:72-83): iterate the root map's visible entries and
deserialize each; entries whose `yjsMapToShape` is `null` are skipped.  The
returned JS `Map` compares as a mapping, modelled as the finite set of
key/shape pairs. -/
def getShapes (st : DocState) : Finset (String × Shape) :=
  (rootKeys st).biUnion fun k => (shapeEntry st k).toFinset

/-- `Y.applyUpdate` (the remote-update path, yjs.ts:141-144): integrate the
update's items (already-known structs are skipped — set union) and union the
delete set. -/
def applyUpdate (st : DocState) (u : Update) : DocState :=
  { st with items := st.items ∪ u.items.toFinset,
            deleted := st.deleted ∪ u.deleted.toFinset }

/-- `Y.Map.set` on map `p` (yjs `typeMapSet`): insert a fresh item stamped
with the local client and next clock, and delete the entry it replaces.
Returns the new state and the delta this write produces. -/
def fieldSet (st : DocState) (p : Option ItemID) (k : String) (c : Content) :
    DocState × Update :=
  let newIt : Item := ⟨⟨st.clientId, st.clock⟩, p, k, c⟩
  let delIds : List ItemID :=
    match visibleItem st p k with
    | some old => [old.id]
    | none => []
  ({ st with clock := st.clock + 1,
             items := insert newIt st.items,
             deleted := st.deleted ∪ delIds.toFinset },
   ⟨[newIt], delIds⟩)

/-- Apply a sequence of field writes (the body of `shapeToYjsMap`). -/
def writeFields (st : DocState) (p : Option ItemID) :
    List (String × Content) → DocState × Update
  | [] => (st, ⟨[], []⟩)
  | (k, c) :: rest =>
      let r1 := fieldSet st p k c
      let r2 := writeFields r1.1 p rest
      (r2.1, ⟨r1.2.items ++ r2.2.items, r1.2.deleted ++ r2.2.deleted⟩)

def styleContent : Option ShapeStyle → Content
  | some v => .value (.styleV v)
  | none => .value .undefinedV

def metaContent : Option ShapeMetadata → Content
  | some v => .value (.metaV v)
  | none => .value .undefinedV

/-- The field writes performed by `shapeToYjsMap` (yjs.ts:315-362), in source
order: the common fields, then the type-specific ones; optional fields are
only written when defined. -/
def shapeFields : Shape → List (String × Content)
  | .pen _ points style metadata closed =>
      [("type", .value (.str "pen")), ("style", styleContent style),
       ("metadata", metaContent metadata), ("points", .value (.pointsV points))] ++
      (match closed with
       | some b => [("closed", .value (.boolean b))]
       | none => [])
  | .rectangle _ x y w h style metadata =>
      [("type", .value (.str "rectangle")), ("style", styleContent style),
       ("metadata", metaContent metadata), ("x", .value (.num x)),
       ("y", .value (.num y)), ("width", .value (.num w)),
       ("height", .value (.num h))]
  | .ellipse _ cx cy rx ry style metadata =>
      [("type", .value (.str "ellipse")), ("style", styleContent style),
       ("metadata", metaContent metadata), ("centerX", .value (.num cx)),
       ("centerY", .value (.num cy)), ("radiusX", .value (.num rx)),
       ("radiusY", .value (.num ry))]
  | .text _ x y t ff fs fw ta style metadata =>
      [("type", .value (.str "text")), ("style", styleContent style),
       ("metadata", metaContent metadata), ("x", .value (.num x)),
       ("y", .value (.num y)), ("text", .value (.str t))] ++
      (match ff with
       | some s => [("fontFamily", .value (.str s))]
       | none => []) ++
      (match fs with
       | some n => [("fontSize", .value (.num n))]
       | none => []) ++
      (match fw with
       | some (.ofString s) => [("fontWeight", .value (.str s))]
       | some (.ofNumber n) => [("fontWeight", .value (.num n))]
       | none => []) ++
      (match ta with
       | some s => [("textAlign", .value (.str s))]
       | none => [])

/-- `setShape` (yjs.ts:93-104): update the existing nested map if the shape id
has a visible entry, else create a new nested map, fill it, and set it under
the shape id.  Returns the new state and the produced delta. -/
def setShapeDoc (st : DocState) (sh : Shape) : DocState × Update :=
  match visibleItem st none sh.sid with
  | some it => writeFields st (some it.id) (shapeFields sh)
  | none =>
      let mid : ItemID := ⟨st.clientId, st.clock⟩
      let outer : Item := ⟨mid, none, sh.sid, .nestedMap⟩
      let st1 : DocState :=
        { st with clock := st.clock + 1, items := insert outer st.items }
      let r := writeFields st1 (some mid) (shapeFields sh)
      (r.1, ⟨outer :: r.2.items, r.2.deleted⟩)

/-- `deleteShape` (yjs.ts:111-113), i.e. `shapesMap.delete(shapeId)` (yjs
`typeMapDelete`): delete the visible entry item for the shape id.  (yjs also
recursively deletes the nested map's content; this is unobservable through
`getShapes` and omitted.) -/
def deleteShapeDoc (st : DocState) (shapeId : String) : DocState × Update :=
  match visibleItem st none shapeId with
  | some it => ({ st with deleted := insert it.id st.deleted }, ⟨[], [it.id]⟩)
  | none => (st, ⟨[], []⟩)

/-- `Y.encodeStateAsUpdate(doc)`: the whole store, encoded as one update
(listed in the canonical item order). -/
def encodeStateAsUpdate (st : DocState) : List Nat :=
  encUpdate ⟨finSort st.items, finSort st.deleted⟩

/-- A fresh `new Y.Doc()` for replica `cid`. -/
def freshDoc (cid : Nat) : DocState := ⟨cid, 0, ∅, ∅⟩

/-- One inbound delta on the remote-update path (yjs.ts:141-144): decode and
`Y.applyUpdate`.  A malformed delta throws out of the handler, leaving the
document unchanged; the exception is modelled separately (`handleUpdateY`). -/
def applyBytes (st : DocState) (bs : List Nat) : DocState :=
  match decodeUpdate bs with
  | some u => applyUpdate st u
  | none => st

/-- A sequence of inbound deltas, each delivered through the remote-update
path by its own transport callback invocation. -/
def applyAll (st : DocState) (l : List (List Nat)) : DocState :=
  l.foldl applyBytes st

/-! ## Transport, awareness, and the YjsDocument coordinator -/

inductive ConnectionStatus where
  | disconnected
  | connecting
  | connected
  | syncing
  | error
deriving DecidableEq, Repr

/-- `LocalTransport` (localTransport.ts:22-61).  Its `sendUpdate` body is
empty — the bytes are discarded.  `sentLog` records the observable call trace
at the transport boundary (the arguments `sendUpdate` was invoked with), not
state the implementation retains. -/
structure LocalTransport where
  status : ConnectionStatus
  sentLog : List (List Nat)
deriving DecidableEq, Repr

/-- An invocation of `sendUpdate(bytes)`: the implementation does nothing with
the bytes; only the call trace grows. -/
def LocalTransport.sendUpdate (t : LocalTransport) (bytes : List Nat) : LocalTransport :=
  { t with sentLog := t.sentLog ++ [bytes] }

/-- `PresenceData` (presence.ts): one user's ephemeral presence entry;
`lastSeen` is the last-heartbeat timestamp in milliseconds. -/
structure PresenceData where
  userId : String
  userName : Option String
  userColor : Option String
  cursor : Option Pt
  activeToolId : Option String
  lastSeen : Nat
deriving DecidableEq, Repr

/-- An awareness state object as `PresenceManager` reads it: only its
`presence` field is consulted (`state.presence as PresenceData | undefined`);
`none` models an absent or `null` field. -/
structure AwarenessState where
  presence : Option PresenceData
deriving DecidableEq, Repr

/-- The y-protocols `Awareness` instance created in the `YjsDocument`
constructor (yjs.ts:39) and exposed by `getAwareness` (yjs.ts:58-65).
`states` is the full clientID → state map, the local client included;
`getStates()` returns it unfiltered. -/
structure Awareness where
  clientID : Nat
  states : List (Nat × AwarenessState)
deriving DecidableEq, Repr

def Awareness.getStates (a : Awareness) : List (Nat × AwarenessState) := a.states

/-- `new Awareness(doc)`: local state initialised to `{}` (no presence
field yet). -/
def newAwareness (cid : Nat) : Awareness := ⟨cid, [(cid, ⟨none⟩)]⟩

/-- `awareness.setLocalStateField('presence', p)`: replace the presence
field of the local client's state (inserting the local state if absent). -/
def setLocalStateField (aw : Awareness) (p : Option PresenceData) : Awareness :=
  let upd : Nat × AwarenessState → Nat × AwarenessState :=
    fun s => if s.1 == aw.clientID then (s.1, ⟨p⟩) else s
  if aw.states.any (fun s => s.1 == aw.clientID) then
    { aw with states := aw.states.map upd }
  else
    { aw with states := aw.states ++ [(aw.clientID, ⟨p⟩)] }

/-- The `PresenceManager` class state (presence.ts:61-88): the awareness
instance it wraps, the captured local client id, and the local presence
entry. -/
structure PresenceManager where
  awareness : Awareness
  localClientId : Nat
  localPresence : PresenceData
deriving DecidableEq, Repr

/-- `new PresenceManager(awareness, userId)` at time `now`: capture the
local client id, initialise the local presence entry, and publish it via
`setLocalStateField('presence', …)`. -/
def newPresenceManager (aw : Awareness) (userId : String) (now : Nat) :
    PresenceManager :=
  let lp : PresenceData := ⟨userId, none, none, none, none, now⟩
  ⟨setLocalStateField aw (some lp), aw.clientID, lp⟩

/-- `getRemotePresence` (presence.ts:135-152): iterate `awareness.getStates()`,
skip the local client, skip states whose `presence` field is falsy, and
collect the rest.  No clock is read and no age check is made. -/
def getRemotePresence (pm : PresenceManager) : List (Nat × PresenceData) :=
  pm.awareness.getStates.filterMap fun s =>
    if s.1 = pm.localClientId then none
    else s.2.presence.map fun d => (s.1, d)

/-- The `YjsDocument` class state (yjs.ts:20-49): the Y.Doc with its shapes
map, the awareness instance, the connection status, and the optional attached
transport. -/
structure YDoc where
  st : DocState
  awareness : Awareness
  status : ConnectionStatus
  transport : Option LocalTransport
deriving DecidableEq

/-- `new YjsDocument()` for replica `cid`. -/
def newYDoc (cid : Nat) : YDoc :=
  ⟨freshDoc cid, newAwareness cid, .disconnected, none⟩

/-- The origin of a document update event.  Local edits run outside any
explicit transaction, so their origin is `null`, never the `YjsDocument`
instance itself (`this`); remote applies via `Y.applyUpdate(doc, update)`
also carry origin `null`.  `self` would be the `origin === this` case. -/
inductive Origin where
  | self
  | other
deriving DecidableEq, Repr

/-- `handleDocumentUpdate` (yjs.ts:196-209): with a transport attached and
`origin !== this`, return without sending; only `origin === this` would be
forwarded — a condition no code path produces. -/
def handleDocumentUpdate (y : YDoc) (update : List Nat) (origin : Origin) : YDoc :=
  match y.transport with
  | some t =>
      if origin ≠ Origin.self then y
      else { y with transport := some (t.sendUpdate update) }
  | none => y

/-- `setShape` at the coordinator level: mutate the doc, then the doc's
`update` event runs `handleDocumentUpdate` with origin `null`. -/
def setShapeY (y : YDoc) (sh : Shape) : YDoc :=
  let r := setShapeDoc y.st sh
  handleDocumentUpdate { y with st := r.1 } (encUpdate r.2) .other

/-- `deleteShape` at the coordinator level. -/
def deleteShapeY (y : YDoc) (shapeId : String) : YDoc :=
  let r := deleteShapeDoc y.st shapeId
  handleDocumentUpdate { y with st := r.1 } (encUpdate r.2) .other

/-- The `handleUpdate` transport callback installed by `connect`
(yjs.ts:141-144): `Y.applyUpdate(this.doc, update)` with no try/catch — a
decode failure on malformed bytes escapes to the caller as an exception,
modelled as `Except.error`. -/
def handleUpdateY (y : YDoc) (bytes : List Nat) : Except String YDoc :=
  match decodeUpdate bytes with
  | some u =>
      let y1 : YDoc := { y with st := applyUpdate y.st u }
      .ok (handleDocumentUpdate y1 bytes .other)
  | none => .error "DecodeError: malformed update"

/-- `connect` with a fresh `LocalTransport` (yjs.ts:132-162 with
localTransport.ts:26-41): the transport reports `connecting` through the
status callback, then the coordinator sends the full encoded state as the
initial handshake.  (The transport's delayed transition to `connected` is a
timer and not modelled; no claim depends on it.) -/
def connectY (y : YDoc) : YDoc :=
  let t0 : LocalTransport := ⟨.connecting, []⟩
  let y1 : YDoc := { y with transport := some t0, status := .connecting }
  let t1 := t0.sendUpdate (encodeStateAsUpdate y.st)
  { y1 with transport := some t1 }

/-- `disconnect` (yjs.ts:167-174): drop the transport (after its own
`disconnect` resolves) and set status to `disconnected`. -/
def disconnectY (y : YDoc) : YDoc :=
  { y with transport := none, status := .disconnected }

/-- `getStatus` (yjs.ts:189-191). -/
def getStatusY (y : YDoc) : ConnectionStatus := y.status

/-- `getShapes` at the coordinator level. -/
def getShapesY (y : YDoc) : Finset (String × Shape) := getShapes y.st

/-- `getAwareness` (yjs.ts:58-65): returns the raw awareness instance. -/
def getAwarenessY (y : YDoc) : Awareness := y.awareness

/-! ## PersistenceManager (localTransport.ts:94-317) -/

/-- The opened IndexedDB database: the stored blob under the single document
key, plus flags modelling a read/write that fails after a successful open
(such failures are caught by `save`/`restore`). -/
structure DB where
  stored : Option (List Nat)
  readFails : Bool
  writeFails : Bool
deriving DecidableEq, Repr

/-- The storage environment: `indexedDB.open` either fails or yields a DB. -/
inductive StorageEnv where
  | unavailable
  | available (db : DB)
deriving DecidableEq, Repr

/-- `openDatabase` (localTransport.ts:218-239): rejects with
`Failed to open IndexedDB` when storage is unavailable. -/
def openDatabase : StorageEnv → Except String DB
  | .unavailable => .error "Failed to open IndexedDB"
  | .available db => .ok db

/-- The `PersistenceManager` instance state. -/
structure PersistenceManager where
  db : Option DB
  isInitialized : Bool
  pendingUpdate : Bool
deriving DecidableEq, Repr

def newPersistenceManager : PersistenceManager := ⟨none, false, false⟩

/-- The body of `restore` (localTransport.ts:169-190) once a DB is present:
read the saved blob; apply it when non-empty; any read or decode error is
caught and logged, leaving the document unchanged. -/
def restoreApply (db : DB) (st : DocState) : DocState :=
  if db.readFails then st
  else
    match db.stored with
    | some bytes =>
        if bytes.length > 0 then
          match decodeUpdate bytes with
          | some u => applyUpdate st u
          | none => st
        else st
    | none => st

/-- `restore` (localTransport.ts:169-190): `if (!this.db) return;` then the
caught read/apply.  Total — never raises. -/
def restorePM (pm : PersistenceManager) (st : DocState) : DocState :=
  match pm.db with
  | none => st
  | some db => restoreApply db st

/-- `save` (localTransport.ts:143-161): `if (!this.db) return;` then encode
the full state and `put` it; errors are caught and logged.  Total — never
raises. -/
def savePM (pm : PersistenceManager) (st : DocState) : PersistenceManager :=
  match pm.db with
  | none => pm
  | some db =>
      if db.writeFails then pm
      else { pm with db := some { db with stored := some (encodeStateAsUpdate st) },
                     pendingUpdate := false }

/-- `initialize` (localTransport.ts:120-135): `this.db = await
this.openDatabase()` has no surrounding try/catch, so an open failure
propagates to the caller; on success the saved state is restored and
auto-save is set up. -/
def initializePM (env : StorageEnv) (pm : PersistenceManager) (st : DocState) :
    Except String (PersistenceManager × DocState) :=
  if pm.isInitialized then .ok (pm, st)
  else
    match openDatabase env with
    | .error e => .error e
    | .ok db =>
        .ok ({ pm with db := some db, isInitialized := true }, restoreApply db st)

/-! ## General lemmas about visibility and snapshots -/

theorem mem_candidates {st : DocState} {p : Option ItemID} {k : String} {it : Item} :
    it ∈ candidates st p k ↔
      it ∈ st.items ∧ it.parent = p ∧ it.key = k ∧ it.id ∉ st.deleted := by
  simp [candidates]

theorem obot_eq_some {α : Type} {x : WithBot α} {a : α} :
    obot x = some a ↔ x = (a : WithBot α) := Iff.rfl

theorem visibleItem_eq_none_of_empty {st : DocState} {p : Option ItemID} {k : String}
    (h : candidates st p k = ∅) : visibleItem st p k = none := by
  unfold visibleItem
  rw [h, Finset.max_empty]
  rfl

theorem visibleItem_mem {st : DocState} {p : Option ItemID} {k : String} {it : Item}
    (h : visibleItem st p k = some it) : it ∈ candidates st p k := by
  unfold visibleItem at h
  exact Finset.mem_of_max (obot_eq_some.mp h)

theorem visibleItem_max {st : DocState} {p : Option ItemID} {k : String} {it : Item}
    (h1 : it ∈ candidates st p k) (h2 : ∀ x ∈ candidates st p k, x ≤ it) :
    visibleItem st p k = some it := by
  unfold visibleItem
  rw [obot_eq_some]
  have hle : (candidates st p k).max ≤ (it : WithBot Item) := by
    apply Finset.max_le
    intro b hb
    exact WithBot.coe_le_coe.mpr (h2 b hb)
  exact le_antisymm hle (Finset.le_max h1)

/-- Item strict order from the client-id component (the head of the
encoding): the yjs winner among concurrent map writes is the larger client. -/
theorem Item.lt_of_client_lt {a b : Item} (h : a.id.client < b.id.client) : a < b := by
  show List.Lex (· < ·) (encItem a) (encItem b)
  exact List.Lex.rel h

/-- Within one client, a later clock orders above an earlier one. -/
theorem Item.lt_of_clock_lt {a b : Item} (h1 : a.id.client = b.id.client)
    (h2 : a.id.clock < b.id.clock) : a < b := by
  show List.Lex (· < ·) (encItem a) (encItem b)
  unfold encItem
  rw [h1]
  exact List.Lex.cons (List.Lex.rel h2)

theorem shapeEntry_fst {st : DocState} {k : String} {p : String × Shape}
    (h : shapeEntry st k = some p) : p.1 = k := by
  unfold shapeEntry at h
  split at h
  · split at h
    · obtain ⟨sh, -, hp⟩ := Option.map_eq_some'.mp h
      rw [← hp]
    · exact absurd h (by simp)
  · exact absurd h (by simp)

theorem shapeEntry_eq_none_of_not_root {st : DocState} {k : String}
    (h : k ∉ rootKeys st) : shapeEntry st k = none := by
  have hc : candidates st none k = ∅ := by
    ext it
    simp only [mem_candidates, Finset.not_mem_empty, iff_false]
    rintro ⟨hmem, hp, hk, -⟩
    exact h (Finset.mem_image.mpr ⟨it, Finset.mem_filter.mpr ⟨hmem, hp⟩, hk⟩)
  unfold shapeEntry
  rw [visibleItem_eq_none_of_empty hc]

theorem rootKeys_of_shapeEntry_some {st : DocState} {k : String} {p : String × Shape}
    (h : shapeEntry st k = some p) : k ∈ rootKeys st := by
  by_contra hk
  rw [shapeEntry_eq_none_of_not_root hk] at h
  exact absurd h (by simp)

/-- The snapshot, read as a mapping: a pair is in the snapshot iff it is the
entry produced for its own key. -/
theorem mem_getShapes_iff {st : DocState} {p : String × Shape} :
    p ∈ getShapes st ↔ shapeEntry st p.1 = some p := by
  unfold getShapes
  rw [Finset.mem_biUnion]
  constructor
  · rintro ⟨k, -, hp⟩
    have h : shapeEntry st k = some p := Option.mem_toFinset.mp hp
    rw [shapeEntry_fst h]
    exact h
  · intro h
    exact ⟨p.1, rootKeys_of_shapeEntry_some h, Option.mem_toFinset.mpr h⟩

/-- Every key of the snapshot is a key of the stored root map. -/
theorem mem_getShapes_key {st : DocState} {p : String × Shape}
    (h : p ∈ getShapes st) : p.1 ∈ rootKeys st :=
  rootKeys_of_shapeEntry_some (mem_getShapes_iff.mp h)

/-- No snapshot entry exists for a key with no visible root item. -/
theorem getShapes_not_mem_of_visible_none {st : DocState} {k : String}
    (h : visibleItem st none k = none) : ∀ sh : Shape, (k, sh) ∉ getShapes st := by
  intro sh hmem
  have he := mem_getShapes_iff.mp hmem
  unfold shapeEntry at he
  rw [h] at he
  exact absurd he (by simp)

/-! ## Convergence of the remote-update path (C1) -/

/-- The items contributed by one encoded delta (none if it is malformed and
hence rejected). -/
def updItems (bs : List Nat) : Finset Item :=
  match decodeUpdate bs with
  | some u => u.items.toFinset
  | none => ∅

/-- The delete-set entries contributed by one encoded delta. -/
def updDeleted (bs : List Nat) : Finset ItemID :=
  match decodeUpdate bs with
  | some u => u.deleted.toFinset
  | none => ∅

theorem applyBytes_fields (st : DocState) (bs : List Nat) :
    applyBytes st bs =
      { st with items := st.items ∪ updItems bs,
                deleted := st.deleted ∪ updDeleted bs } := by
  unfold applyBytes updItems updDeleted
  rcases decodeUpdate bs with _ | u
  · cases st
    simp
  · rfl

theorem applyAll_eq (st : DocState) (l : List (List Nat)) :
    applyAll st l =
      { st with items := st.items ∪ l.toFinset.biUnion updItems,
                deleted := st.deleted ∪ l.toFinset.biUnion updDeleted } := by
  induction l generalizing st with
  | nil =>
    cases st
    simp [applyAll]
  | cons bs t ih =>
    have hstep : applyAll st (bs :: t) = applyAll (applyBytes st bs) t := rfl
    rw [hstep, ih, applyBytes_fields]
    cases st
    simp [Finset.biUnion_insert, Finset.union_assoc]

/-! ## Structure of the deltas produced by local writes -/

theorem fieldSet_spec (st : DocState) (p : Option ItemID) (k : String) (c : Content) :
    (fieldSet st p k c).1.items = st.items ∪ ((fieldSet st p k c).2.items.toFinset) ∧
    (fieldSet st p k c).1.deleted = st.deleted ∪ ((fieldSet st p k c).2.deleted.toFinset) ∧
    (∀ x ∈ (fieldSet st p k c).2.items, x.parent = p) ∧
    (fieldSet st p k c).1.clientId = st.clientId := by
  unfold fieldSet
  refine ⟨?_, rfl, ?_, rfl⟩
  · simp [Finset.insert_eq, Finset.union_comm]
  · intro x hx
    simp at hx
    rw [hx]

theorem writeFields_spec (st : DocState) (p : Option ItemID)
    (fs : List (String × Content)) :
    (writeFields st p fs).1.items = st.items ∪ ((writeFields st p fs).2.items.toFinset) ∧
    (writeFields st p fs).1.deleted = st.deleted ∪ ((writeFields st p fs).2.deleted.toFinset) ∧
    (∀ x ∈ (writeFields st p fs).2.items, x.parent = p) := by
  induction fs generalizing st with
  | nil => simp [writeFields]
  | cons kc rest ih =>
    obtain ⟨k, c⟩ := kc
    have h1 := fieldSet_spec st p k c
    have h2 := ih (fieldSet st p k c).1
    have hunf : writeFields st p ((k, c) :: rest) =
        ((writeFields (fieldSet st p k c).1 p rest).1,
         ⟨(fieldSet st p k c).2.items ++ (writeFields (fieldSet st p k c).1 p rest).2.items,
          (fieldSet st p k c).2.deleted ++
            (writeFields (fieldSet st p k c).1 p rest).2.deleted⟩) := rfl
    rw [hunf]
    refine ⟨?_, ?_, ?_⟩
    · rw [h2.1, h1.1]
      simp [Finset.union_assoc]
    · rw [h2.2.1, h1.2.1]
      simp [Finset.union_assoc]
    · intro x hx
      rcases List.mem_append.mp hx with hx1 | hx2
      · exact h1.2.2.1 x hx1
      · exact h2.2.2 x hx2

/-- Bookkeeping for `writeFields`: every delta item is stamped with the
writing replica's client id and a clock at or above the starting clock;
every delta deletion is the id of some item of the final state with the
written parent; client id is preserved and the clock never decreases. -/
theorem writeFields_track (st : DocState) (p : Option ItemID)
    (fs : List (String × Content)) :
    (∀ x ∈ (writeFields st p fs).2.items,
       x.id.client = st.clientId ∧ st.clock ≤ x.id.clock) ∧
    (∀ d ∈ (writeFields st p fs).2.deleted,
       ∃ x, x ∈ (writeFields st p fs).1.items ∧ x.parent = p ∧ x.id = d) ∧
    (writeFields st p fs).1.clientId = st.clientId ∧
    st.clock ≤ (writeFields st p fs).1.clock := by
  induction fs generalizing st with
  | nil => simp [writeFields]
  | cons kc rest ih =>
    obtain ⟨k, c⟩ := kc
    have hspec := writeFields_spec (fieldSet st p k c).1 p rest
    have h2 := ih (fieldSet st p k c).1
    have hfs1 : (fieldSet st p k c).1.clientId = st.clientId := rfl
    have hfs2 : (fieldSet st p k c).1.clock = st.clock + 1 := rfl
    have hfsI : (fieldSet st p k c).1.items = insert ⟨⟨st.clientId, st.clock⟩, p, k, c⟩ st.items := rfl
    have hunf : writeFields st p ((k, c) :: rest) =
        ((writeFields (fieldSet st p k c).1 p rest).1,
         ⟨(fieldSet st p k c).2.items ++ (writeFields (fieldSet st p k c).1 p rest).2.items,
          (fieldSet st p k c).2.deleted ++
            (writeFields (fieldSet st p k c).1 p rest).2.deleted⟩) := rfl
    rw [hunf]
    refine ⟨?_, ?_, ?_, ?_⟩
    · intro x hx
      rcases List.mem_append.mp hx with hx1 | hx2
      · have hfsD : (fieldSet st p k c).2.items =
            [⟨⟨st.clientId, st.clock⟩, p, k, c⟩] := rfl
        rw [hfsD] at hx1
        have : x = ⟨⟨st.clientId, st.clock⟩, p, k, c⟩ := by simpa using hx1
        rw [this]
        exact ⟨rfl, le_refl _⟩
      · have := h2.1 x hx2
        rw [hfs1, hfs2] at this
        exact ⟨this.1, le_trans (Nat.le_succ _) this.2⟩
    · intro d hd
      rcases List.mem_append.mp hd with hd1 | hd2
      · have hmono : (fieldSet st p k c).1.items ⊆
            (writeFields (fieldSet st p k c).1 p rest).1.items := by
          rw [hspec.1]
          exact Finset.subset_union_left
        unfold fieldSet at hd1
        rcases hv : visibleItem st p k with _ | old
        · rw [hv] at hd1
          simp at hd1
        · rw [hv] at hd1
          have hde : d = old.id := by simpa using hd1
          have hold := visibleItem_mem hv
          have := mem_candidates.mp hold
          exact ⟨old, hmono (by rw [hfsI]; exact Finset.mem_insert_of_mem this.1),
            this.2.1, hde.symm⟩
      · exact h2.2.1 d hd2
    · rw [h2.2.2.1, hfs1]
    · rw [hfs2] at h2
      exact le_trans (Nat.le_succ _) h2.2.2.2

/-- If the only non-deleted root entry item for `sid` is `it`, then any state
whose items add only non-root items, whose delete set extends the original
one, and whose delete set covers `it`, has no visible root entry for `sid`. -/
theorem candidates_root_empty (s M : DocState) (sid : String) (it : Item)
    (huniq : ∀ x ∈ candidates s none sid, x = it)
    (hIt : ∀ x ∈ M.items, x ∈ s.items ∨ x.parent ≠ (none : Option ItemID))
    (hD : s.deleted ⊆ M.deleted) (hit : it.id ∈ M.deleted) :
    candidates M none sid = ∅ := by
  ext x
  simp only [mem_candidates, Finset.not_mem_empty, iff_false]
  rintro ⟨hx, hp, hk, hnd⟩
  rcases hIt x hx with hxs | hpar
  · have hxc : x ∈ candidates s none sid :=
      mem_candidates.mpr ⟨hxs, hp, hk, fun hds => hnd (hD hds)⟩
    rw [huniq x hxc] at hnd
    exact hnd hit
  · exact hpar hp

theorem visibleItem_congr {st1 st2 : DocState} {p : Option ItemID} {k : String}
    (h : candidates st1 p k = candidates st2 p k) :
    visibleItem st1 p k = visibleItem st2 p k := by
  unfold visibleItem
  rw [h]

theorem mapGet_congr {st1 st2 : DocState} {mid : ItemID}
    (h : ∀ k, candidates st1 (some mid) k = candidates st2 (some mid) k)
    (k : String) : mapGet st1 mid k = mapGet st2 mid k := by
  unfold mapGet
  rw [visibleItem_congr (h k)]

theorem yjsMapToShape_congr {st1 st2 : DocState} {mid : ItemID} (sid : String)
    (h : ∀ k, mapGet st1 mid k = mapGet st2 mid k) :
    yjsMapToShape st1 sid mid = yjsMapToShape st2 sid mid := by
  unfold yjsMapToShape
  simp only [h]

/-- `shapeEntry` reads only the items and the delete set. -/
theorem shapeEntry_congr {st1 st2 : DocState}
    (hI : st1.items = st2.items) (hD : st1.deleted = st2.deleted) (k : String) :
    shapeEntry st1 k = shapeEntry st2 k := by
  rcases st1 with ⟨a1, b1, I1, D1⟩
  rcases st2 with ⟨a2, b2, I2, D2⟩
  cases hI
  cases hD
  rfl

/-- `setShape` on a shape id with no visible root entry takes the create
branch: a fresh nested map item followed by the field writes into it. -/
theorem setShapeDoc_create (st : DocState) (sh : Shape)
    (hvis : visibleItem st none sh.sid = none) :
    setShapeDoc st sh =
      ((writeFields ⟨st.clientId, st.clock + 1,
          insert ⟨⟨st.clientId, st.clock⟩, none, sh.sid, .nestedMap⟩ st.items,
          st.deleted⟩ (some ⟨st.clientId, st.clock⟩) (shapeFields sh)).1,
       ⟨⟨⟨st.clientId, st.clock⟩, none, sh.sid, .nestedMap⟩ ::
          (writeFields ⟨st.clientId, st.clock + 1,
            insert ⟨⟨st.clientId, st.clock⟩, none, sh.sid, .nestedMap⟩ st.items,
            st.deleted⟩ (some ⟨st.clientId, st.clock⟩) (shapeFields sh)).2.items,
        (writeFields ⟨st.clientId, st.clock + 1,
          insert ⟨⟨st.clientId, st.clock⟩, none, sh.sid, .nestedMap⟩ st.items,
          st.deleted⟩ (some ⟨st.clientId, st.clock⟩) (shapeFields sh)).2.deleted⟩) := by
  unfold setShapeDoc
  rw [hvis]

/-! ## Concrete fixtures used by witnesses and counterexamples -/

def style0 : ShapeStyle := ⟨"#000000", "transparent", 2, some "round", some "round", none⟩

def meta0 : ShapeMetadata := ⟨"u1", "t0", "t0"⟩

def rectT : Shape := .rectangle "t" 0 0 5 5 (some style0) (some meta0)

def rectA : Shape := .rectangle "s" 1 1 10 10 (some style0) (some meta0)

def rectB : Shape := .rectangle "s" 2 2 20 20 (some style0) (some meta0)

/-- Replica 1 state and delta after an unrelated first edit (`rectT`):
its subsequent writes carry clocks 8…15. -/
def cexA0 : DocState × Update := setShapeDoc (freshDoc 1) rectT

/-- Replica 1 then creates shape `"s"` as `rectA` (clocks 8…15). -/
def cexA : DocState × Update := setShapeDoc cexA0.1 rectA

/-- Replica 2 concurrently creates shape `"s"` as `rectB` (clocks 0…7). -/
def cexB : DocState × Update := setShapeDoc (freshDoc 2) rectB

/-- Replica 2 after merging replica 1's two deltas. -/
def cexM : DocState := applyUpdate (applyUpdate cexB.1 cexA0.2) cexA.2

/-- Replica 1 after merging replica 2's delta. -/
def cexM2 : DocState := applyUpdate cexA.1 cexB.2

/-! ## C1: convergence of the remote-update path -/

/-- C1: for every fixed finite set of encoded deltas, delivering them through
the remote-update path (`Y.applyUpdate` on decode success; a malformed delta
throws and leaves the document unchanged) in any order and with any
duplication yields the same final `getShapes()` snapshot: the final state is
a pure function of the set of applied deltas. -/
theorem remote_updates_converge (st : DocState) (l1 l2 : List (List Nat))
    (h : l1.toFinset = l2.toFinset) :
    getShapes (applyAll st l1) = getShapes (applyAll st l2) := by
  rw [applyAll_eq, applyAll_eq, h]

/-- Witness for C1: two concrete deltas applied as [d1, d2] versus
[d2, d1, d1] (reordered and duplicated) give identical snapshots. -/
theorem remote_updates_converge_witness :
    ([encUpdate ⟨[⟨⟨1, 0⟩, none, "a", .nestedMap⟩,
        ⟨⟨1, 1⟩, some ⟨1, 0⟩, "type", .value (.str "rectangle")⟩], []⟩,
      encUpdate ⟨[⟨⟨2, 0⟩, none, "b", .nestedMap⟩], [⟨1, 99⟩]⟩] : List (List Nat)).toFinset =
    ([encUpdate ⟨[⟨⟨2, 0⟩, none, "b", .nestedMap⟩], [⟨1, 99⟩]⟩,
      encUpdate ⟨[⟨⟨1, 0⟩, none, "a", .nestedMap⟩,
        ⟨⟨1, 1⟩, some ⟨1, 0⟩, "type", .value (.str "rectangle")⟩], []⟩,
      encUpdate ⟨[⟨⟨1, 0⟩, none, "a", .nestedMap⟩,
        ⟨⟨1, 1⟩, some ⟨1, 0⟩, "type", .value (.str "rectangle")⟩], []⟩] : List (List Nat)).toFinset ∧
    getShapes (applyAll (freshDoc 1)
      [encUpdate ⟨[⟨⟨1, 0⟩, none, "a", .nestedMap⟩,
        ⟨⟨1, 1⟩, some ⟨1, 0⟩, "type", .value (.str "rectangle")⟩], []⟩,
       encUpdate ⟨[⟨⟨2, 0⟩, none, "b", .nestedMap⟩], [⟨1, 99⟩]⟩]) =
    getShapes (applyAll (freshDoc 1)
      [encUpdate ⟨[⟨⟨2, 0⟩, none, "b", .nestedMap⟩], [⟨1, 99⟩]⟩,
       encUpdate ⟨[⟨⟨1, 0⟩, none, "a", .nestedMap⟩,
        ⟨⟨1, 1⟩, some ⟨1, 0⟩, "type", .value (.str "rectangle")⟩], []⟩,
       encUpdate ⟨[⟨⟨1, 0⟩, none, "a", .nestedMap⟩,
        ⟨⟨1, 1⟩, some ⟨1, 0⟩, "type", .value (.str "rectangle")⟩], []⟩]) :=
  ⟨by decide, remote_updates_converge _ _ _ (by decide)⟩

/-! ## C3: malformed bytes on the remote-update path -/

/-- C3 counterexample: `handleUpdate` (yjs.ts:141-144) has no try/catch, so a
malformed delta makes the handler raise (`Except.error`) into its caller —
contradicting the claim that no exception escapes.  The bytes `[99]` decode
to no update. -/
theorem malformed_update_throws :
    decodeUpdate [99] = none ∧
    handleUpdateY (newYDoc 1) [99] = .error "DecodeError: malformed update" := by
  exact ⟨rfl, rfl⟩

/-- C3 amended: a malformed delta is rejected — the document state is
unchanged and only that delta is lost — but the decode exception escapes the
remote-update handler into its caller (there is no try/catch). -/
theorem malformed_update_rejected_state_unchanged (y : YDoc) (bytes : List Nat)
    (h : decodeUpdate bytes = none) :
    handleUpdateY y bytes = .error "DecodeError: malformed update" ∧
    applyBytes y.st bytes = y.st := by
  constructor
  · unfold handleUpdateY
    rw [h]
  · unfold applyBytes
    rw [h]

/-- Witness for the amended C3 at the concrete malformed input `[99]`. -/
theorem malformed_update_rejected_state_unchanged_witness :
    handleUpdateY (newYDoc 2) [99] = .error "DecodeError: malformed update" ∧
    applyBytes (newYDoc 2).st [99] = (newYDoc 2).st :=
  malformed_update_rejected_state_unchanged (newYDoc 2) [99] (by decide)

/-! ## C2: concurrent creates of the same shape id -/

/-- C2 counterexample: replicas 1 and 2 concurrently create shape `"s"`
(`rectA` versus `rectB`).  Every field write of replica 1 carries a strictly
higher clock than replica 2's write of the same field, so the claimed
per-field (clock, replicaId) resolution would keep replica 1's value for
every field — yet after merging (in either order) the snapshot holds exactly
replica 2's shape wholesale: yjs resolves the root-map conflict by client id
and keeps one whole nested map, never a hybrid. -/
theorem concurrent_create_not_field_lww :
    (∀ x ∈ cexA.2.items, ∀ y ∈ cexB.2.items, x.key = y.key → y.id.clock < x.id.clock) ∧
    ("s", rectB) ∈ getShapes cexM ∧
    ("s", rectA) ∉ getShapes cexM ∧
    ("s", rectB) ∈ getShapes cexM2 ∧
    rectA ≠ rectB := by
  refine ⟨by decide, by decide, by decide, by decide, by decide⟩

/-- C2 amended: when two replicas concurrently create a shape under the same
id from empty documents, the merged snapshot entry for that id (in either
merge order) is exactly the local snapshot entry of the replica with the
larger client id — the whole nested map of one writer wins, independent of
either replica's clocks, and no per-field hybrid is formed. -/
theorem concurrent_create_whole_shape_wins
    (c1 n1 c2 n2 : Nat) (hc : c1 < c2) (sh1 sh2 : Shape)
    (h12 : sh1.sid = sh2.sid) :
    shapeEntry (applyUpdate (setShapeDoc ⟨c1, n1, ∅, ∅⟩ sh1).1
        (setShapeDoc ⟨c2, n2, ∅, ∅⟩ sh2).2) sh2.sid =
      shapeEntry (setShapeDoc ⟨c2, n2, ∅, ∅⟩ sh2).1 sh2.sid ∧
    shapeEntry (applyUpdate (setShapeDoc ⟨c2, n2, ∅, ∅⟩ sh2).1
        (setShapeDoc ⟨c1, n1, ∅, ∅⟩ sh1).2) sh2.sid =
      shapeEntry (setShapeDoc ⟨c2, n2, ∅, ∅⟩ sh2).1 sh2.sid := by
  have hmidne : (⟨c1, n1⟩ : ItemID) ≠ ⟨c2, n2⟩ :=
    fun h => hc.ne (congrArg ItemID.client h)
  have hvA : visibleItem ⟨c1, n1, ∅, ∅⟩ none sh1.sid = none :=
    visibleItem_eq_none_of_empty (Finset.filter_empty _)
  have hvB : visibleItem ⟨c2, n2, ∅, ∅⟩ none sh2.sid = none :=
    visibleItem_eq_none_of_empty (Finset.filter_empty _)
  have eA : setShapeDoc ⟨c1, n1, ∅, ∅⟩ sh1 =
      ((writeFields ⟨c1, n1 + 1, insert ⟨⟨c1, n1⟩, none, sh1.sid, .nestedMap⟩ ∅, ∅⟩
          (some ⟨c1, n1⟩) (shapeFields sh1)).1,
       ⟨⟨⟨c1, n1⟩, none, sh1.sid, .nestedMap⟩ ::
          (writeFields ⟨c1, n1 + 1, insert ⟨⟨c1, n1⟩, none, sh1.sid, .nestedMap⟩ ∅, ∅⟩
            (some ⟨c1, n1⟩) (shapeFields sh1)).2.items,
        (writeFields ⟨c1, n1 + 1, insert ⟨⟨c1, n1⟩, none, sh1.sid, .nestedMap⟩ ∅, ∅⟩
          (some ⟨c1, n1⟩) (shapeFields sh1)).2.deleted⟩) :=
    setShapeDoc_create _ _ hvA
  have eB : setShapeDoc ⟨c2, n2, ∅, ∅⟩ sh2 =
      ((writeFields ⟨c2, n2 + 1, insert ⟨⟨c2, n2⟩, none, sh2.sid, .nestedMap⟩ ∅, ∅⟩
          (some ⟨c2, n2⟩) (shapeFields sh2)).1,
       ⟨⟨⟨c2, n2⟩, none, sh2.sid, .nestedMap⟩ ::
          (writeFields ⟨c2, n2 + 1, insert ⟨⟨c2, n2⟩, none, sh2.sid, .nestedMap⟩ ∅, ∅⟩
            (some ⟨c2, n2⟩) (shapeFields sh2)).2.items,
        (writeFields ⟨c2, n2 + 1, insert ⟨⟨c2, n2⟩, none, sh2.sid, .nestedMap⟩ ∅, ∅⟩
          (some ⟨c2, n2⟩) (shapeFields sh2)).2.deleted⟩) :=
    setShapeDoc_create _ _ hvB
  have sA := writeFields_spec ⟨c1, n1 + 1,
    insert ⟨⟨c1, n1⟩, none, sh1.sid, .nestedMap⟩ ∅, ∅⟩ (some ⟨c1, n1⟩) (shapeFields sh1)
  have sB := writeFields_spec ⟨c2, n2 + 1,
    insert ⟨⟨c2, n2⟩, none, sh2.sid, .nestedMap⟩ ∅, ∅⟩ (some ⟨c2, n2⟩) (shapeFields sh2)
  have tA := writeFields_track ⟨c1, n1 + 1,
    insert ⟨⟨c1, n1⟩, none, sh1.sid, .nestedMap⟩ ∅, ∅⟩ (some ⟨c1, n1⟩) (shapeFields sh1)
  have tB := writeFields_track ⟨c2, n2 + 1,
    insert ⟨⟨c2, n2⟩, none, sh2.sid, .nestedMap⟩ ∅, ∅⟩ (some ⟨c2, n2⟩) (shapeFields sh2)
  rw [eA, eB]
  -- Abbreviate: WA/WB are the nested field-write runs of the two replicas.
  generalize hWA : writeFields ⟨c1, n1 + 1,
      insert ⟨⟨c1, n1⟩, none, sh1.sid, .nestedMap⟩ ∅, ∅⟩
      (some ⟨c1, n1⟩) (shapeFields sh1) = WA at sA tA ⊢
  generalize hWB : writeFields ⟨c2, n2 + 1,
      insert ⟨⟨c2, n2⟩, none, sh2.sid, .nestedMap⟩ ∅, ∅⟩
      (some ⟨c2, n2⟩) (shapeFields sh2) = WB at sB tB ⊢
  have hAitems : WA.1.items =
      insert ⟨⟨c1, n1⟩, none, sh1.sid, .nestedMap⟩ WA.2.items.toFinset := by
    have h : WA.1.items = insert ⟨⟨c1, n1⟩, none, sh1.sid, .nestedMap⟩ ∅ ∪
        WA.2.items.toFinset := sA.1
    rw [h, Finset.insert_union, Finset.empty_union]
  have hBitems : WB.1.items =
      insert ⟨⟨c2, n2⟩, none, sh2.sid, .nestedMap⟩ WB.2.items.toFinset := by
    have h : WB.1.items = insert ⟨⟨c2, n2⟩, none, sh2.sid, .nestedMap⟩ ∅ ∪
        WB.2.items.toFinset := sB.1
    rw [h, Finset.insert_union, Finset.empty_union]
  have hAdel : WA.1.deleted = WA.2.deleted.toFinset := by
    have h : WA.1.deleted = ∅ ∪ WA.2.deleted.toFinset := sA.2.1
    rw [h, Finset.empty_union]
  have hBdel : WB.1.deleted = WB.2.deleted.toFinset := by
    have h : WB.1.deleted = ∅ ∪ WB.2.deleted.toFinset := sB.2.1
    rw [h, Finset.empty_union]
  have hAmem : ∀ x ∈ WA.1.items, x = ⟨⟨c1, n1⟩, none, sh1.sid, .nestedMap⟩ ∨
      (x.parent = some ⟨c1, n1⟩ ∧ x.id.client = c1 ∧ n1 + 1 ≤ x.id.clock) := by
    intro x hx
    rw [hAitems] at hx
    rcases Finset.mem_insert.mp hx with h | h
    · exact Or.inl h
    · have hl := List.mem_toFinset.mp h
      exact Or.inr ⟨sA.2.2 x hl, (tA.1 x hl).1, (tA.1 x hl).2⟩
  have hBmem : ∀ x ∈ WB.1.items, x = ⟨⟨c2, n2⟩, none, sh2.sid, .nestedMap⟩ ∨
      (x.parent = some ⟨c2, n2⟩ ∧ x.id.client = c2 ∧ n2 + 1 ≤ x.id.clock) := by
    intro x hx
    rw [hBitems] at hx
    rcases Finset.mem_insert.mp hx with h | h
    · exact Or.inl h
    · have hl := List.mem_toFinset.mp h
      exact Or.inr ⟨sB.2.2 x hl, (tB.1 x hl).1, (tB.1 x hl).2⟩
  have hAdelc : ∀ d ∈ WA.1.deleted, d.client = c1 ∧ n1 + 1 ≤ d.clock := by
    intro d hd
    rw [hAdel] at hd
    obtain ⟨x, hx, hp, hid⟩ := tA.2.1 d (List.mem_toFinset.mp hd)
    rcases hAmem x hx with h | h
    · rw [h] at hp
      exact absurd hp (by simp)
    · rw [← hid]
      exact ⟨h.2.1, h.2.2⟩
  have hBdelc : ∀ d ∈ WB.1.deleted, d.client = c2 ∧ n2 + 1 ≤ d.clock := by
    intro d hd
    rw [hBdel] at hd
    obtain ⟨x, hx, hp, hid⟩ := tB.2.1 d (List.mem_toFinset.mp hd)
    rcases hBmem x hx with h | h
    · rw [h] at hp
      exact absurd hp (by simp)
    · rw [← hid]
      exact ⟨h.2.1, h.2.2⟩
  have hOAd : (⟨c1, n1⟩ : ItemID) ∉ WA.1.deleted ∪ WB.2.deleted.toFinset := by
    intro hd
    rcases Finset.mem_union.mp hd with h | h
    · exact absurd (hAdelc _ h).2 (by simp)
    · rw [← hBdel] at h
      have h' : c1 = c2 := (hBdelc _ h).1
      exact hc.ne h'
  have hOBd : (⟨c2, n2⟩ : ItemID) ∉ WA.1.deleted ∪ WB.2.deleted.toFinset := by
    intro hd
    rcases Finset.mem_union.mp hd with h | h
    · have h' : c2 = c1 := (hAdelc _ h).1
      exact hc.ne' h'
    · rw [← hBdel] at h
      exact absurd (hBdelc _ h).2 (by simp)
  -- The merged document on replica 1's side.
  have hM1i : (applyUpdate WA.1 ⟨⟨⟨c2, n2⟩, none, sh2.sid, .nestedMap⟩ ::
      WB.2.items, WB.2.deleted⟩).items =
      WA.1.items ∪ insert ⟨⟨c2, n2⟩, none, sh2.sid, .nestedMap⟩ WB.2.items.toFinset := by
    show WA.1.items ∪ _ = _
    rw [List.toFinset_cons]
  have hM1d : (applyUpdate WA.1 ⟨⟨⟨c2, n2⟩, none, sh2.sid, .nestedMap⟩ ::
      WB.2.items, WB.2.deleted⟩).deleted = WA.1.deleted ∪ WB.2.deleted.toFinset := rfl
  have hroot : candidates (applyUpdate WA.1 ⟨⟨⟨c2, n2⟩, none, sh2.sid, .nestedMap⟩ ::
      WB.2.items, WB.2.deleted⟩) none sh2.sid =
      insert ⟨⟨c1, n1⟩, none, sh1.sid, .nestedMap⟩
        {⟨⟨c2, n2⟩, none, sh2.sid, .nestedMap⟩} := by
    ext x
    simp only [mem_candidates, Finset.mem_insert, Finset.mem_singleton]
    constructor
    · rintro ⟨hmem, hp, hk, hnd⟩
      rw [hM1i] at hmem
      rcases Finset.mem_union.mp hmem with h | h
      · rcases hAmem x h with h1 | h1
        · exact Or.inl h1
        · rw [h1.1] at hp
          exact absurd hp (by simp)
      · rcases Finset.mem_insert.mp h with h1 | h1
        · exact Or.inr h1
        · rw [sB.2.2 x (List.mem_toFinset.mp h1)] at hp
          exact absurd hp (by simp)
    · rintro (rfl | rfl)
      · refine ⟨?_, rfl, h12, ?_⟩
        · rw [hM1i]
          exact Finset.mem_union_left _
            (by rw [hAitems]; exact Finset.mem_insert_self _ _)
        · rw [hM1d]
          exact hOAd
      · refine ⟨?_, rfl, rfl, ?_⟩
        · rw [hM1i]
          exact Finset.mem_union_right _ (Finset.mem_insert_self _ _)
        · rw [hM1d]
          exact hOBd
  have hvisM1 : visibleItem (applyUpdate WA.1 ⟨⟨⟨c2, n2⟩, none, sh2.sid, .nestedMap⟩ ::
      WB.2.items, WB.2.deleted⟩) none sh2.sid =
      some ⟨⟨c2, n2⟩, none, sh2.sid, .nestedMap⟩ := by
    apply visibleItem_max
    · rw [hroot]
      exact Finset.mem_insert_of_mem (Finset.mem_singleton_self _)
    · intro x hx
      rw [hroot] at hx
      rcases Finset.mem_insert.mp hx with h | h
      · rw [h]
        exact le_of_lt (Item.lt_of_client_lt hc)
      · rw [Finset.mem_singleton.mp h]
  have hcand : ∀ k, candidates (applyUpdate WA.1
      ⟨⟨⟨c2, n2⟩, none, sh2.sid, .nestedMap⟩ :: WB.2.items, WB.2.deleted⟩)
      (some ⟨c2, n2⟩) k = candidates WB.1 (some ⟨c2, n2⟩) k := by
    intro k
    ext x
    simp only [mem_candidates]
    constructor
    · rintro ⟨hmem, hp, hk, hnd⟩
      rw [hM1i] at hmem
      rw [hM1d] at hnd
      refine ⟨?_, hp, hk, ?_⟩
      · rcases Finset.mem_union.mp hmem with h | h
        · rcases hAmem x h with h1 | h1
          · rw [h1] at hp
            exact absurd hp (by simp)
          · rw [h1.1] at hp
            exact absurd (Option.some_injective _ hp) hmidne
        · rcases Finset.mem_insert.mp h with h1 | h1
          · rw [h1] at hp
            exact absurd hp (by simp)
          · rw [hBitems]
            exact Finset.mem_insert_of_mem h1
      · rw [hBdel]
        exact fun hd => hnd (Finset.mem_union_right _ hd)
    · rintro ⟨hmem, hp, hk, hnd⟩
      refine ⟨?_, hp, hk, ?_⟩
      · rw [hM1i]
        rw [hBitems] at hmem
        exact Finset.mem_union_right _ hmem
      · rw [hM1d]
        intro hd
        rcases Finset.mem_union.mp hd with h | h
        · have hcl : x.id.client = c2 := by
            rcases hBmem x hmem with h1 | h1
            · rw [h1] at hp
              exact absurd hp (by simp)
            · exact h1.2.1
          have h' : x.id.client = c1 := (hAdelc _ h).1
          rw [hcl] at h'
          exact hc.ne' h'
        · rw [← hBdel] at h
          exact hnd h
  have hrootB : candidates WB.1 none sh2.sid =
      {⟨⟨c2, n2⟩, none, sh2.sid, .nestedMap⟩} := by
    ext x
    simp only [mem_candidates, Finset.mem_singleton]
    constructor
    · rintro ⟨hmem, hp, hk, hnd⟩
      rcases hBmem x hmem with h | h
      · exact h
      · rw [h.1] at hp
        exact absurd hp (by simp)
    · rintro rfl
      refine ⟨?_, rfl, rfl, ?_⟩
      · rw [hBitems]
        exact Finset.mem_insert_self _ _
      · intro hd
        exact absurd (hBdelc _ hd).2 (by simp)
  have hvisB1 : visibleItem WB.1 none sh2.sid =
      some ⟨⟨c2, n2⟩, none, sh2.sid, .nestedMap⟩ := by
    apply visibleItem_max
    · rw [hrootB]
      exact Finset.mem_singleton_self _
    · intro x hx
      rw [hrootB] at hx
      rw [Finset.mem_singleton.mp hx]
  have hmain : shapeEntry (applyUpdate WA.1
      ⟨⟨⟨c2, n2⟩, none, sh2.sid, .nestedMap⟩ :: WB.2.items, WB.2.deleted⟩) sh2.sid =
      shapeEntry WB.1 sh2.sid := by
    unfold shapeEntry
    rw [hvisM1, hvisB1]
    show (yjsMapToShape _ sh2.sid ⟨c2, n2⟩).map _ = (yjsMapToShape _ sh2.sid ⟨c2, n2⟩).map _
    rw [yjsMapToShape_congr sh2.sid (fun k => mapGet_congr hcand k)]
  refine ⟨hmain, ?_⟩
  have hM2i : (applyUpdate WB.1 ⟨⟨⟨c1, n1⟩, none, sh1.sid, .nestedMap⟩ ::
      WA.2.items, WA.2.deleted⟩).items =
      WB.1.items ∪ insert ⟨⟨c1, n1⟩, none, sh1.sid, .nestedMap⟩ WA.2.items.toFinset := by
    show WB.1.items ∪ _ = _
    rw [List.toFinset_cons]
  have hM2d : (applyUpdate WB.1 ⟨⟨⟨c1, n1⟩, none, sh1.sid, .nestedMap⟩ ::
      WA.2.items, WA.2.deleted⟩).deleted = WB.1.deleted ∪ WA.2.deleted.toFinset := rfl
  have hI : (applyUpdate WB.1 ⟨⟨⟨c1, n1⟩, none, sh1.sid, .nestedMap⟩ ::
      WA.2.items, WA.2.deleted⟩).items =
      (applyUpdate WA.1 ⟨⟨⟨c2, n2⟩, none, sh2.sid, .nestedMap⟩ ::
        WB.2.items, WB.2.deleted⟩).items := by
    rw [hM1i, hM2i, hAitems, hBitems, Finset.union_comm]
  have hD : (applyUpdate WB.1 ⟨⟨⟨c1, n1⟩, none, sh1.sid, .nestedMap⟩ ::
      WA.2.items, WA.2.deleted⟩).deleted =
      (applyUpdate WA.1 ⟨⟨⟨c2, n2⟩, none, sh2.sid, .nestedMap⟩ ::
        WB.2.items, WB.2.deleted⟩).deleted := by
    rw [hM1d, hM2d, hAdel, hBdel, Finset.union_comm]
  rw [shapeEntry_congr hI hD]
  exact hmain

/-- Witness for the amended C2: replicas 1 (clock 8) and 2 (clock 0)
concurrently create `"s"`; the merged entry is replica 2's local entry. -/
theorem concurrent_create_whole_shape_wins_witness :
    (1 : Nat) < 2 ∧ Shape.sid rectA = Shape.sid rectB ∧
    shapeEntry (applyUpdate (setShapeDoc ⟨1, 8, ∅, ∅⟩ rectA).1
        (setShapeDoc ⟨2, 0, ∅, ∅⟩ rectB).2) (Shape.sid rectB) =
      shapeEntry (setShapeDoc ⟨2, 0, ∅, ∅⟩ rectB).1 (Shape.sid rectB) :=
  ⟨by decide, rfl,
    (concurrent_create_whole_shape_wins 1 8 2 0 (by decide) rectA rectB rfl).1⟩

/-! ## C4: deletion wins over a concurrent field update -/

/-- C4: replica A (any client/clock, in particular a higher deletion clock)
deletes shape `sid` while replica B concurrently updates it via `setShape`,
both starting from the same shared document.  After the two deltas are merged
in either order, `sid` is absent from the shapes snapshot.  The hypotheses
say the shared document has exactly one non-deleted root entry item for `sid`
(the yjs invariant for a synchronized map entry). -/
theorem delete_wins_over_concurrent_update
    (s : DocState) (sid : String) (it : Item) (ca na cb nb : Nat) (shB : Shape)
    (hsid : shB.sid = sid)
    (hmem : it ∈ candidates s none sid)
    (huniq : ∀ x ∈ candidates s none sid, x = it) :
    (∀ sh : Shape, (sid, sh) ∉ getShapes (applyUpdate
        (deleteShapeDoc ⟨ca, na, s.items, s.deleted⟩ sid).1
        (setShapeDoc ⟨cb, nb, s.items, s.deleted⟩ shB).2)) ∧
    (∀ sh : Shape, (sid, sh) ∉ getShapes (applyUpdate
        (setShapeDoc ⟨cb, nb, s.items, s.deleted⟩ shB).1
        (deleteShapeDoc ⟨ca, na, s.items, s.deleted⟩ sid).2)) := by
  have hvis : visibleItem s none sid = some it :=
    visibleItem_max hmem (fun x hx => (huniq x hx).le)
  have hvisA : visibleItem ⟨ca, na, s.items, s.deleted⟩ none sid = some it := hvis
  have hvisB : visibleItem ⟨cb, nb, s.items, s.deleted⟩ none sid = some it := hvis
  have hA : deleteShapeDoc ⟨ca, na, s.items, s.deleted⟩ sid =
      (⟨ca, na, s.items, insert it.id s.deleted⟩, ⟨[], [it.id]⟩) := by
    unfold deleteShapeDoc
    rw [hvisA]
  have hB : setShapeDoc ⟨cb, nb, s.items, s.deleted⟩ shB =
      writeFields ⟨cb, nb, s.items, s.deleted⟩ (some it.id) (shapeFields shB) := by
    unfold setShapeDoc
    rw [hsid, hvisB]
  have hW := writeFields_spec ⟨cb, nb, s.items, s.deleted⟩ (some it.id) (shapeFields shB)
  rw [hA, hB]
  constructor
  · intro sh
    apply getShapes_not_mem_of_visible_none
    apply visibleItem_eq_none_of_empty
    apply candidates_root_empty s _ sid it huniq
    · intro x hx
      rcases Finset.mem_union.mp hx with h | h
      · exact Or.inl h
      · refine Or.inr ?_
        rw [hW.2.2 x (List.mem_toFinset.mp h)]
        simp
    · exact fun a ha => Finset.mem_union_left _ (Finset.mem_insert_of_mem ha)
    · exact Finset.mem_union_left _ (Finset.mem_insert_self _ _)
  · intro sh
    apply getShapes_not_mem_of_visible_none
    apply visibleItem_eq_none_of_empty
    apply candidates_root_empty s _ sid it huniq
    · intro x hx
      rcases Finset.mem_union.mp hx with h | h
      · rw [hW.1] at h
        rcases Finset.mem_union.mp h with h2 | h2
        · exact Or.inl h2
        · refine Or.inr ?_
          rw [hW.2.2 x (List.mem_toFinset.mp h2)]
          simp
      · simp at h
    · intro a ha
      apply Finset.mem_union_left
      rw [hW.2.1]
      exact Finset.mem_union_left _ ha
    · apply Finset.mem_union_right
      simp

/-- Witness for C4 at a concrete shared document: replica 1 created shape
`"s"`; then replica 1 (clock 10) deletes it while replica 2 (clock 0)
concurrently rewrites it; after merging, `"s"` is absent. -/
theorem delete_wins_over_concurrent_update_witness :
    Shape.sid rectB = "s" ∧
    ((⟨⟨1, 0⟩, none, "s", .nestedMap⟩ : Item) ∈
      candidates (setShapeDoc (freshDoc 1) rectA).1 none "s") ∧
    (∀ x ∈ candidates (setShapeDoc (freshDoc 1) rectA).1 none "s",
      x = (⟨⟨1, 0⟩, none, "s", .nestedMap⟩ : Item)) ∧
    ("s", rectB) ∉ getShapes (applyUpdate
      (deleteShapeDoc ⟨1, 10, (setShapeDoc (freshDoc 1) rectA).1.items,
        (setShapeDoc (freshDoc 1) rectA).1.deleted⟩ "s").1
      (setShapeDoc ⟨2, 0, (setShapeDoc (freshDoc 1) rectA).1.items,
        (setShapeDoc (freshDoc 1) rectA).1.deleted⟩ rectB).2) :=
  ⟨rfl, by decide, by decide,
    (delete_wins_over_concurrent_update (setShapeDoc (freshDoc 1) rectA).1 "s"
      ⟨⟨1, 0⟩, none, "s", .nestedMap⟩ 1 10 2 0 rectB rfl (by decide) (by decide)).1 rectB⟩

/-! ## C5: outbound updates while disconnected -/

/-- C5 counterexample: a concrete run — connect, edit, disconnect, edit while
disconnected, reconnect.  The delta produced by the disconnected edit is
never passed to `sendUpdate`: after reconnecting, the transport's observable
call trace holds exactly the full-state handshake, which differs from that
delta.  Nothing is queued anywhere (no queue exists in the code), refuting
the claimed bounded-queue-and-flush behavior. -/
theorem offline_edit_not_queued_or_flushed :
    (connectY (setShapeY (disconnectY (setShapeY (connectY (newYDoc 1)) rectT))
        rectA)).transport.map LocalTransport.sentLog =
      some [encodeStateAsUpdate
        (setShapeY (disconnectY (setShapeY (connectY (newYDoc 1)) rectT)) rectA).st] ∧
    encUpdate (setShapeDoc (disconnectY (setShapeY (connectY (newYDoc 1)) rectT)).st rectA).2 ∉
      ((connectY (setShapeY (disconnectY (setShapeY (connectY (newYDoc 1)) rectT))
        rectA)).transport.map LocalTransport.sentLog).getD [] := by
  constructor
  · rfl
  · decide

/-- C5 amended: there is no outbound queue.  Local edits never invoke
`sendUpdate` at all (the `origin === this` check in `handleDocumentUpdate`
never passes, connected or not), so updates produced while disconnected are
simply dropped; `connect` instead transmits the full document state as its
handshake, which subsumes offline edits. -/
theorem no_outbound_queue (y : YDoc) (sh : Shape) (sid : String) :
    (setShapeY y sh).transport = y.transport ∧
    (deleteShapeY y sid).transport = y.transport ∧
    (connectY y).transport = some ⟨.connecting, [encodeStateAsUpdate y.st]⟩ := by
  refine ⟨?_, ?_, rfl⟩
  · cases y with
    | mk st aw status tr => cases tr <;> simp [setShapeY, handleDocumentUpdate]
  · cases y with
    | mk st aw status tr => cases tr <;> simp [deleteShapeY, handleDocumentUpdate]

/-! ## C6: persistence degradation -/

/-- C6 counterexample: `initialize` (localTransport.ts:120-135) does not catch
the `openDatabase` rejection, so when storage is unavailable the error
propagates to its caller — contradicting the claim that every persistence
operation completes without raising. -/
theorem initialize_raises_when_storage_unavailable :
    initializePM .unavailable newPersistenceManager (freshDoc 1) =
      .error "Failed to open IndexedDB" := by
  rfl

/-- C6 amended: `save` and `restore` never raise — with no database they are
no-ops, and read/write failures are caught, leaving manager and document
unchanged — and the document keeps accepting edits regardless; but
`initialize` propagates the storage-open failure to its caller instead of
degrading silently. -/
theorem persistence_degrades_memory_only
    (pm : PersistenceManager) (st : DocState) (db : DB) :
    (pm.db = none → restorePM pm st = st ∧ savePM pm st = pm) ∧
    (pm.db = some db → db.readFails = true → restorePM pm st = st) ∧
    (pm.db = some db → db.writeFails = true → savePM pm st = pm) ∧
    (pm.isInitialized = false →
      initializePM .unavailable pm st = .error "Failed to open IndexedDB") := by
  refine ⟨fun h => ?_, fun h hr => ?_, fun h hw => ?_, fun h => ?_⟩
  · unfold restorePM savePM
    rw [h]
    exact ⟨rfl, rfl⟩
  · simp [restorePM, restoreApply, h, hr]
  · simp [savePM, h, hw]
  · simp [initializePM, h, openDatabase]

/-- Witness for the amended C6 at concrete inputs: an absent DB, a failing
DB, and an unavailable environment. -/
theorem persistence_degrades_memory_only_witness :
    (restorePM ⟨none, false, false⟩ (freshDoc 3) = freshDoc 3 ∧
      savePM ⟨none, false, false⟩ (freshDoc 3) = ⟨none, false, false⟩) ∧
    restorePM ⟨some ⟨none, true, true⟩, true, false⟩ (freshDoc 3) = freshDoc 3 ∧
    savePM ⟨some ⟨none, true, true⟩, true, false⟩ (freshDoc 3) =
      ⟨some ⟨none, true, true⟩, true, false⟩ ∧
    initializePM .unavailable newPersistenceManager (freshDoc 3) =
      .error "Failed to open IndexedDB" :=
  ⟨(persistence_degrades_memory_only ⟨none, false, false⟩ (freshDoc 3)
      ⟨none, true, true⟩).1 rfl,
   (persistence_degrades_memory_only ⟨some ⟨none, true, true⟩, true, false⟩
      (freshDoc 3) ⟨none, true, true⟩).2.1 rfl rfl,
   (persistence_degrades_memory_only ⟨some ⟨none, true, true⟩, true, false⟩
      (freshDoc 3) ⟨none, true, true⟩).2.2.1 rfl rfl,
   (persistence_degrades_memory_only newPersistenceManager (freshDoc 3)
      ⟨none, true, true⟩).2.2.2 rfl⟩

/-! ## C7: full-state round-trip -/

theorem encUpdate_ne_nil (u : Update) : encUpdate u ≠ [] := by
  unfold encUpdate encListBy
  simp

/-- States that agree on items and delete set have the same snapshot (the
client id and clock fields are not read by `getShapes`). -/
theorem getShapes_fields (c k : Nat) (st : DocState) :
    getShapes ⟨c, k, st.items, st.deleted⟩ = getShapes st := by
  cases st
  rfl

/-- C7: encoding the full document state (`Y.encodeStateAsUpdate`) and
applying the bytes to a fresh empty document — via the remote-update path or
via the persistence restore path — reproduces an identical `getShapes()`
snapshot. -/
theorem full_state_roundtrip (st : DocState) (cid : Nat) :
    getShapes (applyBytes (freshDoc cid) (encodeStateAsUpdate st)) = getShapes st ∧
    getShapes (restoreApply ⟨some (encodeStateAsUpdate st), false, false⟩ (freshDoc cid)) =
      getShapes st := by
  have hdec : decodeUpdate (encodeStateAsUpdate st) =
      some ⟨finSort st.items, finSort st.deleted⟩ := decodeUpdate_enc _
  have happ : applyUpdate (freshDoc cid)
      ⟨finSort st.items, finSort st.deleted⟩ = ⟨cid, 0, st.items, st.deleted⟩ := by
    unfold applyUpdate freshDoc
    simp [toFinset_finSort]
  constructor
  · unfold applyBytes
    rw [hdec]
    show getShapes (applyUpdate (freshDoc cid) ⟨finSort st.items, finSort st.deleted⟩) =
      getShapes st
    rw [happ, getShapes_fields]
  · unfold restoreApply
    have hpos : (encodeStateAsUpdate st).length > 0 :=
      List.length_pos.mpr (encUpdate_ne_nil _)
    simp only [Bool.false_eq_true, if_false, if_pos hpos, hdec]
    show getShapes (applyUpdate (freshDoc cid) ⟨finSort st.items, finSort st.deleted⟩) =
      getShapes st
    rw [happ, getShapes_fields]

/-! ## C8: local edits after disconnect -/

/-- C8: after `disconnect()`, `getStatus()` is `disconnected`, and subsequent
local edits (`setShape`, `deleteShape`) are fully effective: they mutate the
document exactly as the doc-level operations do (the absent transport changes
nothing and nothing fails — the operations are total). -/
theorem disconnected_edits_effective (y : YDoc) (sh : Shape) (sid : String) :
    getStatusY (disconnectY y) = .disconnected ∧
    (setShapeY (disconnectY y) sh).st = (setShapeDoc y.st sh).1 ∧
    (deleteShapeY (disconnectY y) sid).st = (deleteShapeDoc y.st sid).1 ∧
    getShapesY (setShapeY (disconnectY y) sh) = getShapes (setShapeDoc y.st sh).1 := by
  refine ⟨rfl, rfl, rfl, rfl⟩

/-! ## C9: the remote-presence snapshot -/

/-- A presence entry whose last heartbeat was at time 0. -/
def staleEntry : PresenceData := ⟨"u2", none, none, none, none, 0⟩

/-- A presence manager for local client 1 whose awareness also holds client
2's stale entry. -/
def cexPresence : PresenceManager :=
  newPresenceManager ⟨1, [(1, ⟨none⟩), (2, ⟨some staleEntry⟩)]⟩ "u1" 999

/-- C9 counterexample: `getRemotePresence` (presence.ts:135-152) applies no
TTL filtering — it reads no clock at all — so the snapshot contains client
2's entry although its last heartbeat was at time 0: at any consumer read
time past the TTL window (for example 1000000 ms against a 30 s TTL, age
1000000 > 30000) the entry is still handed out, contradicting the claim
that an entry whose age exceeds the TTL is absent from every snapshot. -/
theorem stale_presence_entry_in_snapshot :
    getRemotePresence cexPresence = [(2, staleEntry)] ∧
    staleEntry.lastSeen = 0 ∧ 1000000 - staleEntry.lastSeen > 30000 := by
  exact ⟨by decide, by decide, by decide⟩

/-- C9 amended: the remote-presence snapshot (`getRemotePresence`) never
contains the local session's entry and skips states without a presence
field, but it applies no TTL filtering: every remote state with a presence
field is included regardless of how old its `lastSeen` heartbeat is —
expiry happens only through the external y-protocols timer, never at
snapshot time. -/
theorem remote_presence_excludes_local_only (pm : PresenceManager) :
    (∀ d : PresenceData, (pm.localClientId, d) ∉ getRemotePresence pm) ∧
    (∀ (cid : Nat) (st : AwarenessState), (cid, st) ∈ pm.awareness.getStates →
      cid ≠ pm.localClientId → ∀ d : PresenceData, st.presence = some d →
      (cid, d) ∈ getRemotePresence pm) := by
  constructor
  · intro d hmem
    obtain ⟨s, hs, hf⟩ := List.mem_filterMap.mp hmem
    by_cases h : s.1 = pm.localClientId
    · rw [if_pos h] at hf
      exact absurd hf (by simp)
    · rw [if_neg h] at hf
      obtain ⟨d', -, hd⟩ := Option.map_eq_some'.mp hf
      exact h (congrArg Prod.fst hd)
  · intro cid st hmem hne d hd
    refine List.mem_filterMap.mpr ⟨(cid, st), hmem, ?_⟩
    rw [if_neg hne, hd]
    rfl

/-- Witness for the amended C9 at the concrete manager: the local session's
entry is absent while the stale remote entry is present. -/
theorem remote_presence_excludes_local_only_witness :
    ((1 : Nat), cexPresence.localPresence) ∉ getRemotePresence cexPresence ∧
    ((2 : Nat), staleEntry) ∈ getRemotePresence cexPresence :=
  ⟨(remote_presence_excludes_local_only cexPresence).1 _,
   (remote_presence_excludes_local_only cexPresence).2 2 ⟨some staleEntry⟩
     (by decide) (by decide) staleEntry rfl⟩

/-! ## C10: getShapes is total and lossy only on malformed entries -/

theorem yjsMapToShape_eq_none_of_typeOk_false {st : DocState} {k : String}
    {mid : ItemID} (h : typeOk (mapGet st mid "type") = false) :
    yjsMapToShape st k mid = none := by
  unfold yjsMapToShape
  by_cases ht : truthy (mapGet st mid "type") = false
  · rw [if_pos ht]
  · rw [if_neg ht]
    split
    · rename_i heq
      rw [heq] at h
      exact absurd h (by simp [typeOk])
    · rename_i heq
      rw [heq] at h
      exact absurd h (by simp [typeOk])
    · rename_i heq
      rw [heq] at h
      exact absurd h (by simp [typeOk])
    · rename_i heq
      rw [heq] at h
      exact absurd h (by simp [typeOk])
    · rfl

/-- C10: `getShapes` is total (it is a function; `yjsMapToShape`'s try/catch
and defaulting mean no entry can make it throw), its key set is contained in
the keys stored in the root shapes map, and a stored entry whose `type` field
is missing or not one of the four known type strings — or whose root value is
not a nested map at all — is silently omitted from the snapshot. -/
theorem getShapes_total_lossy (st : DocState) :
    (∀ p ∈ getShapes st, p.1 ∈ rootKeys st) ∧
    (∀ (k : String) (it : Item), visibleItem st none k = some it →
      it.content = .nestedMap → typeOk (mapGet st it.id "type") = false →
      ∀ sh : Shape, (k, sh) ∉ getShapes st) ∧
    (∀ (k : String) (it : Item) (v : YValue), visibleItem st none k = some it →
      it.content = .value v → ∀ sh : Shape, (k, sh) ∉ getShapes st) := by
  refine ⟨fun p hp => mem_getShapes_key hp, ?_, ?_⟩
  · intro k it hvis hmap hbad sh hmem
    have he := mem_getShapes_iff.mp hmem
    unfold shapeEntry at he
    rw [hvis] at he
    simp only [hmap] at he
    rw [yjsMapToShape_eq_none_of_typeOk_false hbad] at he
    exact absurd he (by simp)
  · intro k it v hvis hval sh hmem
    have he := mem_getShapes_iff.mp hmem
    unfold shapeEntry at he
    rw [hvis] at he
    simp only [hval] at he
    exact absurd he (by simp)

/-- Witness for C10 at a concrete document: shape `"z"` stores
`type = "bogus"`, shape `"w"`'s root entry holds a plain number; both are
omitted while the well-formed `"s"` rectangle is present. -/
theorem getShapes_total_lossy_witness :
    (("s", rectA) ∈
      getShapes ⟨1, 6, {⟨⟨1, 0⟩, none, "z", .nestedMap⟩,
        ⟨⟨1, 1⟩, some ⟨1, 0⟩, "type", .value (.str "bogus")⟩,
        ⟨⟨1, 2⟩, none, "w", .value (.num 3)⟩}, ∅⟩ →
      ("s", rectA).1 ∈ rootKeys ⟨1, 6, {⟨⟨1, 0⟩, none, "z", .nestedMap⟩,
        ⟨⟨1, 1⟩, some ⟨1, 0⟩, "type", .value (.str "bogus")⟩,
        ⟨⟨1, 2⟩, none, "w", .value (.num 3)⟩}, ∅⟩) ∧
    ("z", rectA) ∉ getShapes ⟨1, 6, {⟨⟨1, 0⟩, none, "z", .nestedMap⟩,
        ⟨⟨1, 1⟩, some ⟨1, 0⟩, "type", .value (.str "bogus")⟩,
        ⟨⟨1, 2⟩, none, "w", .value (.num 3)⟩}, ∅⟩ ∧
    ("w", rectA) ∉ getShapes ⟨1, 6, {⟨⟨1, 0⟩, none, "z", .nestedMap⟩,
        ⟨⟨1, 1⟩, some ⟨1, 0⟩, "type", .value (.str "bogus")⟩,
        ⟨⟨1, 2⟩, none, "w", .value (.num 3)⟩}, ∅⟩ :=
  ⟨fun hp => (getShapes_total_lossy _).1 _ hp,
   (getShapes_total_lossy _).2.1 "z" ⟨⟨1, 0⟩, none, "z", .nestedMap⟩
     (by decide) rfl (by decide) rectA,
   (getShapes_total_lossy _).2.2 "w" ⟨⟨1, 2⟩, none, "w", .value (.num 3)⟩ (.num 3)
     (by decide) rfl rectA⟩

end SketchBoard
